import Mathlib

/-!
Verification of the Hermyx reverse proxy (request pipeline, cache subsystem,
rate-limit subsystem) against its natural-language specification.

The Go source is shallowly embedded: durations and timestamps are integer
nanoseconds (`Int`/`Nat`), byte slices are `List Nat`, compiled regexes are
opaque boolean predicates on strings, and the map-plus-recency-list of the
LRU cache is fused into a single front-ordered association list (the Go code
keeps the map and the list in lockstep, so the fused list carries the same
information).  Fallible operations return explicit error flags; the Go nil
pointer dereference reachable in `handleRequest` is modelled by an explicit
`panicked` outcome.
-/

namespace Hermyx

/-- Association-list lookup by string key (models Go map indexing). -/
def lookupKey {α : Type} : List (String × α) → String → Option α
  | [], _ => none
  | (k, v) :: rest, key => if k = key then some v else lookupKey rest key

/-- Remove every binding of a key (models Go `delete` on a map plus removing
the element from the recency list; keys are unique in the Go map). -/
def eraseKey {α : Type} : List (String × α) → String → List (String × α)
  | [], _ => []
  | (k, v) :: rest, key =>
      if k = key then eraseKey rest key else (k, v) :: eraseKey rest key

/-- An incoming HTTP request as seen by the engine: path, method, raw query
string, headers and the Host header. -/
structure Request where
  path : String
  method : String
  query : String
  headers : List (String × String)
  host : String
deriving Repr, DecidableEq

/-- strings.ToLower, written by mapping `Char.toLower` over the characters
(HTTP methods and component names are ASCII). -/
def strToLower (s : String) : String := ⟨s.data.map Char.toLower⟩

/-- Raw header value; empty string when the header is absent
(models `ctx.Request.Header.Peek`). -/
def Request.headerValue (req : Request) (name : String) : String :=
  (lookupKey req.headers name).getD ""

def CACHE_KEY_PATH : String := "path"
def CACHE_KEY_METHOD : String := "method"
def CACHE_KEY_QUERY : String := "query"
def CACHE_KEY_HEADER : String := "header"

/-- models.CacheKeyConfig: component list, excluded methods, declared header
names (the `Headers` field of the Go struct, flattened to the `Key` values). -/
structure CacheKeyConfig where
  type : List String
  excludeMethods : List String
  headers : List String
deriving Repr, DecidableEq

/-- models.CacheConfig (backend type and Redis block omitted: they are not
consulted by the routines modelled here). -/
structure CacheConfig where
  enabled : Bool
  ttl : Int
  capacity : Nat
  maxContentSize : Nat
  keyConfig : Option CacheKeyConfig
deriving Repr, DecidableEq

/-- The key parts accumulated by `CacheManager.GetKey`'s loop over the
component list: `method` contributes the lower-cased method, `path` the raw
path, `query` the raw query string; any other component (including `header`)
falls through the switch and contributes nothing. -/
def keyPartsOf (req : Request) : List String → List String
  | [] => []
  | t :: rest =>
      if t = CACHE_KEY_METHOD then strToLower req.method :: keyPartsOf req rest
      else if t = CACHE_KEY_PATH then req.path :: keyPartsOf req rest
      else if t = CACHE_KEY_QUERY then req.query :: keyPartsOf req rest
      else keyPartsOf req rest

/-- CacheManager.GetKey: join the collected parts with the pipe separator. -/
def GetKey (kc : CacheKeyConfig) (req : Request) : String :=
  String.intercalate "|" (keyPartsOf req kc.type)

/-- Key parts as the specification describes them: identical to the code for
`method`, `path` and `query`, and additionally, for a `header` component, the
raw value of each declared header name in its declared order (empty when the
header is absent).  This definition follows the spec's words and exists only
to be compared against `GetKey`. -/
def specKeyPartsOf (kc : CacheKeyConfig) (req : Request) : List String → List String
  | [] => []
  | t :: rest =>
      if t = CACHE_KEY_METHOD then strToLower req.method :: specKeyPartsOf kc req rest
      else if t = CACHE_KEY_PATH then req.path :: specKeyPartsOf kc req rest
      else if t = CACHE_KEY_QUERY then req.query :: specKeyPartsOf kc req rest
      else if t = CACHE_KEY_HEADER then
        kc.headers.map (fun h => req.headerValue h) ++ specKeyPartsOf kc req rest
      else specKeyPartsOf kc req rest

/-- Fingerprint as the specification describes it. -/
def getKeySpec (kc : CacheKeyConfig) (req : Request) : String :=
  String.intercalate "|" (specKeyPartsOf kc req kc.type)

/-- sort.Strings: ascending lexicographic sort of the component list. -/
def sortStrings (l : List String) : List String :=
  l.insertionSort (fun a b => a ≤ b)

/-- Result of CacheManager.Resolve; `panicked` models the nil dereference in
`sort.Strings(config.KeyConfig.Type)` when the key policy is still nil after
inheritance. -/
inductive ResolveResult where
  | panicked
  | ok (cfg : Option CacheConfig)
deriving Repr, DecidableEq

/-- CacheManager.Resolve: a nil route policy yields the global config
unchanged; a disabled route policy is returned as-is; an enabled route policy
inherits TTL, key policy and max content size from the global config when
unset, and then its key-policy component list is sorted. -/
def resolve (engineConfig : Option CacheConfig) (routeConfig : Option CacheConfig) :
    ResolveResult :=
  match routeConfig with
  | none => .ok engineConfig
  | some rc =>
    if !rc.enabled then .ok (some rc)
    else
      let ttl := if rc.ttl = 0 then
          (match engineConfig with | some ec => ec.ttl | none => rc.ttl)
        else rc.ttl
      let kc := if rc.keyConfig.isNone then
          (match engineConfig with | some ec => ec.keyConfig | none => none)
        else rc.keyConfig
      let mcs := if rc.maxContentSize = 0 then
          (match engineConfig with | some ec => ec.maxContentSize | none => rc.maxContentSize)
        else rc.maxContentSize
      match kc with
      | none => .panicked
      | some k =>
        .ok (some { rc with
          ttl := ttl
          maxContentSize := mcs
          keyConfig := some { k with type := sortStrings k.type } })

/-- A compiled route: compiled regexes are opaque boolean matchers, the cache
policy is the already-resolved effective policy. -/
structure CompiledRoute where
  pathPattern : String → Bool
  includeRegex : Option (String → Bool)
  excludeRegex : Option (String → Bool)
  target : String
  cache : CacheConfig

/-- The path/include/exclude filter shared by both matchers: path regex
matches, include regex nil or matching, exclude regex nil or non-matching. -/
def routeFilterMatch (cr : CompiledRoute) (path : String) : Bool :=
  cr.pathPattern path &&
  (match cr.includeRegex with | none => true | some f => f path) &&
  (match cr.excludeRegex with | none => true | some f => !f path)

/-- The excluded-methods consult of `matchRoute`: with a non-nil key policy,
the request method (already lower-cased by the caller) is compared against
the lower-cased entries of `ExcludeMethods`. -/
def methodExcluded (kc : Option CacheKeyConfig) (method : String) : Bool :=
  match kc with
  | none => false
  | some k => k.excludeMethods.any (fun m => strToLower m = method)

/-- Engine.matchRoute: first route passing the filter wins; if its key policy
excludes the request method the whole match reports "no route". -/
def matchRoute : List CompiledRoute → String → String → Option CompiledRoute
  | [], _, _ => none
  | cr :: rest, path, method =>
    if !(routeFilterMatch cr path) then matchRoute rest path method
    else if methodExcluded cr.cache.keyConfig method then none
    else some cr

/-- Engine.matchRouteForRateLimit: same filter, excludeMethods ignored. -/
def matchRouteForRateLimit : List CompiledRoute → String → Option CompiledRoute
  | [], _ => none
  | cr :: rest, path =>
    if !(routeFilterMatch cr path) then matchRouteForRateLimit rest path
    else some cr

/-- The triple returned by a cache backend `Get`: value, present flag and an
error flag (non-nil Go error). -/
structure GetRes where
  value : Option (List Nat)
  present : Bool
  err : Bool
deriving Repr, DecidableEq

/-- Engine.handleCache's decision: only consulted when the route cache is
enabled; a backend error is treated as a miss, otherwise the present flag
decides. -/
def handleCacheHit (enabled : Bool) (g : GetRes) : Bool :=
  enabled && (!g.err && g.present)

/-- A successful upstream response: status code and body bytes. -/
structure UpstreamResponse where
  status : Int
  body : List Nat
deriving Repr, DecidableEq

/-- Engine.cacheResponse: store `(key, body, TTL)` when the status is 2xx and
the body fits in the effective max content size.  The enabled flag is not
consulted here.  The returned option is the `cacheManager.Set` call made. -/
def cacheResponse (cfg : CacheConfig) (key : String) (u : UpstreamResponse) :
    Option (String × List Nat × Int) :=
  if 200 ≤ u.status ∧ u.status < 300 then
    if u.body.length ≤ cfg.maxContentSize then some (key, u.body, cfg.ttl)
    else none
  else none

/-- Outcome of Engine.handleRequest: `panicked` models the Go nil-pointer
dereference of a nil key policy inside `GetKey`; otherwise status code,
whether the HIT header was set, whether an upstream dispatch happened, and
the cache store performed (if any). -/
inductive HandleOutcome where
  | panicked
  | ok (status : Int) (hitHeader : Bool) (usedUpstream : Bool)
      (stored : Option (String × List Nat × Int))
deriving Repr, DecidableEq

def HandleOutcome.stored : HandleOutcome → Option (String × List Nat × Int)
  | .panicked => none
  | .ok _ _ _ s => s

def HandleOutcome.usedUpstream : HandleOutcome → Bool
  | .panicked => false
  | .ok _ _ u _ => u

/-- Engine.handleRequest: match the route; unmatched requests fall back to
proxy-by-Host (404 without a Host); a matched route with cache enabled and a
nil key policy yields 500; then `GetKey` runs on the key policy (dereferencing
it — nil means panic), the cache is probed when enabled, and after upstream
dispatch `cacheResponse` runs unconditionally.  `upstream = none` models a
dispatch error (502). -/
def handleRequest (routes : List CompiledRoute) (req : Request)
    (cacheGet : String → GetRes) (upstream : Option UpstreamResponse) :
    HandleOutcome :=
  match matchRoute routes req.path (strToLower req.method) with
  | none =>
    if req.host = "" then .ok 404 false false none
    else
      match upstream with
      | none => .ok 502 false true none
      | some u => .ok u.status false true none
  | some cr =>
    if cr.cache.enabled && cr.cache.keyConfig.isNone then .ok 500 false false none
    else
      match cr.cache.keyConfig with
      | none => .panicked
      | some kc =>
        let key := GetKey kc req
        if handleCacheHit cr.cache.enabled (cacheGet key) then .ok 200 true false none
        else
          match upstream with
          | none => .ok 502 false true none
          | some u => .ok u.status false true (cacheResponse cr.cache key u)

/-- One entry of the memory LRU+TTL cache: value bytes and absolute expiry. -/
structure MemEntry where
  value : List Nat
  expiresAt : Int
deriving Repr, DecidableEq

/-- cache.Cache: capacity plus the items.  The Go map and doubly-linked
recency list are fused into one association list, front = most recently
used; the two are kept in lockstep by the Go code. -/
structure MemCache where
  capacity : Nat
  items : List (String × MemEntry)
deriving Repr, DecidableEq

/-- cache.NewCache with an empty store (capacity must be positive, the Go
constructor panics otherwise). -/
def MemCache.empty (capacity : Nat) : MemCache := ⟨capacity, []⟩

/-- Cache.Set: an existing key is updated and moved to the front; otherwise,
when the store is full, the least-recently-used tail is evicted before the
new entry is inserted at the front.  Expiry is `now + ttl`. -/
def MemCache.Set (c : MemCache) (key : String) (value : List Nat)
    (ttl now : Int) : MemCache :=
  match lookupKey c.items key with
  | some _ => { c with items := (key, ⟨value, now + ttl⟩) :: eraseKey c.items key }
  | none =>
    let base := if c.capacity ≤ c.items.length then c.items.dropLast else c.items
    { c with items := (key, ⟨value, now + ttl⟩) :: base }

/-- Cache.Get: absent keys report absent; an entry whose expiry lies strictly
before `now` is removed and reported absent; otherwise the entry moves to the
front and its value is returned. -/
def MemCache.Get (c : MemCache) (key : String) (now : Int) :
    Option (List Nat) × Bool × MemCache :=
  match lookupKey c.items key with
  | none => (none, false, c)
  | some e =>
    if now > e.expiresAt then (none, false, { c with items := eraseKey c.items key })
    else (some e.value, true, { c with items := (key, e) :: eraseKey c.items key })

/-- Cache.Delete. -/
def MemCache.Delete (c : MemCache) (key : String) : MemCache :=
  { c with items := eraseKey c.items key }

/-- One operation of a Set/Get/Delete sequence, each carrying the wall-clock
instant at which it runs. -/
inductive MemOp where
  | set (key : String) (value : List Nat) (ttl now : Int)
  | get (key : String) (now : Int)
  | del (key : String)
deriving Repr, DecidableEq

def applyMemOp (c : MemCache) : MemOp → MemCache
  | .set k v ttl now => c.Set k v ttl now
  | .get k now => (c.Get k now).2.2
  | .del k => c.Delete k

/-- Run a sequence of operations from a given cache state. -/
def runMemOps (c : MemCache) (ops : List MemOp) : MemCache :=
  ops.foldl applyMemOp c

/-- One record of the append-only disk cache log (modelled at record
granularity: the big-endian byte layout is a memory-layout detail).
`expiry` is nanoseconds since epoch, 0 = no expiry. -/
structure DiskRecord where
  key : String
  expiry : Nat
  value : List Nat
deriving Repr, DecidableEq

/-- cache.DiskCache state: the log of records (a record's offset is its index
in the log), the in-memory index mapping keys to offsets, the LRU key list
(front = most recent) and the capacity. -/
structure DiskCacheState where
  records : List DiskRecord
  index : List (String × Nat)
  lru : List String
  capacity : Nat
deriving Repr, DecidableEq

/-- DiskCache.delete: drop the key from index and LRU; the record's bytes
linger in the log as dead space. -/
def DiskCacheState.deleteKey (st : DiskCacheState) (key : String) : DiskCacheState :=
  { st with index := eraseKey st.index key, lru := st.lru.erase key }

/-- DiskCache.Get: index lookup (a missing key is a non-nil "key not found"
error), re-read of the record at the stored offset (out-of-range model of the
"corrupted data" checks), key validation ("key mismatch" error), expiry check
(an expired record is deleted and reported as a non-nil "key expired" error),
and finally the value is copied out and the key moves to the LRU front. -/
def DiskCache.Get (st : DiskCacheState) (key : String) (now : Nat) :
    GetRes × DiskCacheState :=
  match lookupKey st.index key with
  | none => (⟨none, false, true⟩, st)
  | some off =>
    match st.records[off]? with
    | none => (⟨none, false, true⟩, st)
    | some rec =>
      if rec.key ≠ key then (⟨none, false, true⟩, st)
      else if rec.expiry ≠ 0 ∧ now > rec.expiry then
        (⟨none, false, true⟩, st.deleteKey key)
      else (⟨some rec.value, true, false⟩, { st with lru := key :: st.lru.erase key })

/-- ratelimit.TokenBucket state: token count and last-refill timestamp in
nanoseconds.  Capacity and rate are passed per call, as in
`consumeWithLimit`. -/
structure TokenBucket where
  tokens : Int
  lastRefillTime : Int
deriving Repr, DecidableEq

/-- Result of one admission check on a bucket. -/
structure ConsumeResult where
  allowed : Bool
  remaining : Int
  resetTime : Int
  bucket : TokenBucket
deriving Repr, DecidableEq

/-- TokenBucket.calculateResetTimeWithLimit: `now` when the bucket holds at
least `limit` tokens, otherwise `now` plus the seconds needed to refill
(float arithmetic modelled by truncating integer division on nanoseconds). -/
def calculateResetTimeWithLimit (tokens now limit refillRate : Int) : Int :=
  if tokens ≥ limit then now
  else now + ((limit - tokens) * 1000000000).tdiv refillRate

/-- int64(elapsed.Seconds()): the elapsed nanoseconds truncated to whole
seconds (exact for the magnitudes relevant here). -/
def elapsedWholeSeconds (elapsedNs : Int) : Int :=
  elapsedNs.tdiv 1000000000

/-- TokenBucket.consumeWithLimit: a non-positive limit denies immediately;
otherwise the bucket gains `int64(elapsed.Seconds()) * refillRate` tokens
capped at `limit`, the last-refill timestamp advances only when tokens were
added, and then one token is consumed when available. -/
def consumeWithLimit (tb : TokenBucket) (limit refillRate now : Int) :
    ConsumeResult :=
  if limit ≤ 0 then
    { allowed := false, remaining := 0
      resetTime := calculateResetTimeWithLimit tb.tokens now limit refillRate
      bucket := tb }
  else
    let elapsed := now - tb.lastRefillTime
    let tokensToAdd := elapsedWholeSeconds elapsed * refillRate
    let tokens1 := if 0 < tokensToAdd then min (tb.tokens + tokensToAdd) limit else tb.tokens
    let lastRefill1 := if 0 < tokensToAdd then now else tb.lastRefillTime
    if 0 < tokens1 then
      { allowed := true, remaining := tokens1 - 1
        resetTime := calculateResetTimeWithLimit (tokens1 - 1) now limit refillRate
        bucket := ⟨tokens1 - 1, lastRefill1⟩ }
    else
      { allowed := false, remaining := 0
        resetTime := calculateResetTimeWithLimit tokens1 now limit refillRate
        bucket := ⟨tokens1, lastRefill1⟩ }

/-- Result triple of a Redis admission check. -/
structure RedisAllowResult where
  allowed : Bool
  remaining : Int
  resetTime : Int
deriving Repr, DecidableEq

/-- ratelimit.RedisRateLimiter (only the field the modelled paths consult). -/
structure RedisRateLimiter where
  failOpen : Bool
deriving Repr, DecidableEq

/-- NewRedisRateLimiter's fail-open resolution: defaults to true, overridden
by a non-nil `FailOpen` config value. -/
def NewRedisRateLimiter (failOpenCfg : Option Bool) : RedisRateLimiter :=
  ⟨failOpenCfg.getD true⟩

/-- RedisRateLimiter.AllowWithLimit, with the Lua-script invocation abstracted
as `evalResult`: an `Except` error is a transport error or timeout, a reply
list of fewer than three values is a malformed reply.  A non-positive limit
denies immediately with reset `now + window`.  On error or malformed reply
the fail-open flag decides: allow with full remaining, or deny with 0
remaining, reset `now + window` in both cases.  A well-formed reply is
returned as-is. -/
def RedisRateLimiter.AllowWithLimit (r : RedisRateLimiter)
    (limit window now : Int) (evalResult : Except Unit (List Int)) :
    RedisAllowResult :=
  if limit ≤ 0 then ⟨false, 0, now + window⟩
  else
    match evalResult with
    | .error _ =>
      if r.failOpen then ⟨true, limit, now + window⟩ else ⟨false, 0, now + window⟩
    | .ok values =>
      if values.length < 3 then
        (if r.failOpen then ⟨true, limit, now + window⟩ else ⟨false, 0, now + window⟩)
      else ⟨values.getD 0 0 = 1, values.getD 1 0, values.getD 2 0⟩

/-- A cache backend answer that is always a clean miss. -/
def missGet : String → GetRes := fun _ => ⟨none, false, false⟩

def c1kc : CacheKeyConfig := ⟨[CACHE_KEY_PATH], [], []⟩

/-- A route whose effective cache policy is disabled but carries a key
policy, as produced by `resolve` for a route-level `enabled: false` block. -/
def c1route : CompiledRoute :=
  { pathPattern := fun _ => true, includeRegex := none, excludeRegex := none
    target := "backend:1", cache := ⟨false, 7, 0, 10, some c1kc⟩ }

/-- The same route with caching enabled, for the amended statement. -/
def c1wroute : CompiledRoute :=
  { pathPattern := fun _ => true, includeRegex := none, excludeRegex := none
    target := "backend:1", cache := ⟨true, 3, 0, 10, some c1kc⟩ }

def c1req : Request := ⟨"/p", "get", "", [], "example.com"⟩

def c2kc : CacheKeyConfig := ⟨[CACHE_KEY_HEADER, CACHE_KEY_PATH], [], ["X-Api-Key"]⟩

def c2req : Request := ⟨"/p", "get", "", [("X-Api-Key", "k1")], ""⟩

/-- A route whose path pattern never matches (first in declaration order). -/
def c6r1 : CompiledRoute :=
  { pathPattern := fun _ => false, includeRegex := none, excludeRegex := none
    target := "a:1", cache := ⟨true, 1, 0, 10, some ⟨["path"], [], []⟩⟩ }

/-- A route that matches every path and excludes the POST method. -/
def c6r2 : CompiledRoute :=
  { pathPattern := fun _ => true, includeRegex := none, excludeRegex := none
    target := "b:2", cache := ⟨true, 1, 0, 10, some ⟨["path"], ["POST"], []⟩⟩ }

def c6req : Request := ⟨"/x", "post", "", [], ""⟩

def c7kcA : CacheKeyConfig := ⟨["query", "path"], [], []⟩

def c7kcB : CacheKeyConfig := ⟨["path", "query"], [], []⟩

/-- Two global cache configurations declaring the same component set in
different orders; the routes using them declare no route-level policy. -/
def c7gA : CacheConfig := ⟨true, 5, 100, 100, some c7kcA⟩

def c7gB : CacheConfig := ⟨true, 5, 100, 100, some c7kcB⟩

def c7req : Request := ⟨"/p", "get", "q", [], ""⟩

/-- Route-level enabled cache policies with permuted component lists. -/
def c7rc1 : CacheConfig := ⟨true, 5, 0, 100, some c7kcA⟩

def c7rc2 : CacheConfig := ⟨true, 5, 0, 100, some c7kcB⟩

/-- Two inserts 20 ns apart: the first entry's expiry (10) has passed by the
time of the second operation (now = 20), yet the entry is still stored. -/
def c8ops : List MemOp := [.set "a" [1] 10 0, .set "b" [2] 10 20]

def c8wops : List MemOp := [.set "a" [1] 5 0, .set "b" [2] 5 1, .get "a" 2]

/-- A plausible global cache policy. -/
def c9global : CacheConfig := ⟨true, 5, 100, 100, some ⟨["path"], [], []⟩⟩

/-- A route-level cache block with `enabled: false` and no key policy:
`resolve` returns it unchanged. -/
def c9routeCfg : CacheConfig := ⟨false, 0, 0, 0, none⟩

def c9route : CompiledRoute :=
  { pathPattern := fun _ => true, includeRegex := none, excludeRegex := none
    target := "b:2", cache := c9routeCfg }

def c9req : Request := ⟨"/x", "get", "", [], "h"⟩

/-- An empty disk cache: every key is absent. -/
def c10st : DiskCacheState := ⟨[], [], [], 10⟩

def c10kc : CacheKeyConfig := ⟨[CACHE_KEY_PATH], [], []⟩

def c10route : CompiledRoute :=
  { pathPattern := fun _ => true, includeRegex := none, excludeRegex := none
    target := "b:2", cache := ⟨true, 5, 10, 100, some c10kc⟩ }

def c10req : Request := ⟨"/d", "get", "", [], ""⟩

theorem length_eraseKey_le {α : Type} (l : List (String × α)) (k : String) :
    (eraseKey l k).length ≤ l.length := by
  induction l with
  | nil => simp [eraseKey]
  | cons p rest ih =>
    obtain ⟨a, b⟩ := p
    by_cases hk : a = k
    · simp only [eraseKey, hk, if_pos]
      exact le_trans ih (Nat.le_succ _)
    · simp only [eraseKey, hk, if_neg, not_false_iff, List.length_cons]
      exact Nat.succ_le_succ ih

theorem lookupKey_isSome_length_eraseKey_lt {α : Type} (l : List (String × α))
    (k : String) (h : (lookupKey l k).isSome) :
    (eraseKey l k).length < l.length := by
  induction l with
  | nil => simp [lookupKey] at h
  | cons p rest ih =>
    obtain ⟨a, b⟩ := p
    by_cases hk : a = k
    · simp only [eraseKey, hk, if_pos, List.length_cons]
      exact Nat.lt_succ_of_le (length_eraseKey_le rest k)
    · simp only [lookupKey, hk, if_neg, not_false_iff] at h
      simp only [eraseKey, hk, if_neg, not_false_iff, List.length_cons]
      exact Nat.succ_lt_succ (ih h)

theorem memSet_length_le (c : MemCache) (key : String) (value : List Nat)
    (ttl now : Int) (hC : 0 < c.capacity) (h : c.items.length ≤ c.capacity) :
    ((c.Set key value ttl now).items.length ≤ c.capacity) := by
  unfold MemCache.Set
  cases hl : lookupKey c.items key with
  | some e =>
    simp only [List.length_cons]
    have := lookupKey_isSome_length_eraseKey_lt c.items key (by simp [hl])
    omega
  | none =>
    by_cases hcap : c.capacity ≤ c.items.length
    · have hlen : c.items.length = c.capacity := le_antisymm h hcap
      simp only [hcap, if_pos, List.length_cons, List.length_dropLast]
      omega
    · simp only [hcap, if_neg, not_false_iff, List.length_cons]
      omega

theorem memGet_length_le (c : MemCache) (key : String) (now : Int)
    (h : c.items.length ≤ c.capacity) :
    ((c.Get key now).2.2.items.length ≤ c.capacity) := by
  unfold MemCache.Get
  cases hl : lookupKey c.items key with
  | none => simpa using h
  | some e =>
    by_cases hex : now > e.expiresAt
    · simp only [hex, if_pos]
      exact le_trans (length_eraseKey_le _ _) h
    · simp only [hex, if_neg, not_false_iff, List.length_cons]
      have := lookupKey_isSome_length_eraseKey_lt c.items key (by simp [hl])
      omega

theorem memDelete_length_le (c : MemCache) (key : String)
    (h : c.items.length ≤ c.capacity) :
    ((c.Delete key).items.length ≤ c.capacity) := by
  unfold MemCache.Delete
  exact le_trans (length_eraseKey_le _ _) h

theorem applyMemOp_capacity (c : MemCache) (op : MemOp) :
    (applyMemOp c op).capacity = c.capacity := by
  cases op with
  | set k v ttl now =>
    simp only [applyMemOp, MemCache.Set]
    cases lookupKey c.items k <;> simp
  | get k now =>
    simp only [applyMemOp, MemCache.Get]
    cases lookupKey c.items k with
    | none => rfl
    | some e => by_cases h : now > e.expiresAt <;> simp [h]
  | del k => rfl

theorem applyMemOp_length_le (c : MemCache) (op : MemOp) (hC : 0 < c.capacity)
    (h : c.items.length ≤ c.capacity) :
    (applyMemOp c op).items.length ≤ (applyMemOp c op).capacity := by
  rw [applyMemOp_capacity]
  cases op with
  | set k v ttl now => exact memSet_length_le c k v ttl now hC h
  | get k now => exact memGet_length_le c k now h
  | del k => exact memDelete_length_le c k h

theorem runMemOps_capacity (ops : List MemOp) (c : MemCache) :
    (runMemOps c ops).capacity = c.capacity := by
  induction ops generalizing c with
  | nil => rfl
  | cons op rest ih =>
    simp only [runMemOps, List.foldl_cons]
    exact (ih (applyMemOp c op)).trans (applyMemOp_capacity c op)

theorem runMemOps_length_le (ops : List MemOp) (c : MemCache)
    (hC : 0 < c.capacity) (h : c.items.length ≤ c.capacity) :
    (runMemOps c ops).items.length ≤ (runMemOps c ops).capacity := by
  induction ops generalizing c with
  | nil => simpa [runMemOps] using h
  | cons op rest ih =>
    have h1 := applyMemOp_length_le c op hC h
    have h2 : 0 < (applyMemOp c op).capacity := by rw [applyMemOp_capacity]; exact hC
    simpa [runMemOps, List.foldl_cons] using ih (applyMemOp c op) h2 h1

/-- C1 fails as stated: a route whose effective cache policy is disabled
still has its 2xx response stored under the fingerprint — `cacheResponse`
runs unconditionally after upstream dispatch and never consults the enabled
flag. -/
theorem C1_counterexample :
    (handleRequest [c1route] c1req missGet (some ⟨200, [1, 2]⟩)).stored =
      some ("/p", [1, 2], 7) ∧
    c1route.cache.enabled = false := by
  constructor
  · rfl
  · rfl

/-- C1 (amended): after a successful upstream dispatch on a matched route
with a non-nil key policy and no cache hit, the response body is stored
under the fingerprint if and only if the status is in [200, 299] and the
body length is at most the route's effective max cacheable content size;
the route's cache enabled flag is not consulted at store time. -/
theorem C1_amended (routes : List CompiledRoute) (req : Request)
    (get : String → GetRes) (u : UpstreamResponse) (cr : CompiledRoute)
    (kc : CacheKeyConfig)
    (hmatch : matchRoute routes req.path (strToLower req.method) = some cr)
    (hkc : cr.cache.keyConfig = some kc)
    (hmiss : handleCacheHit cr.cache.enabled (get (GetKey kc req)) = false) :
    (handleRequest routes req get (some u)).stored =
        some (GetKey kc req, u.body, cr.cache.ttl) ↔
      (200 ≤ u.status ∧ u.status < 300 ∧ u.body.length ≤ cr.cache.maxContentSize) := by
  unfold handleRequest
  rw [hmatch]
  simp only [hkc, Option.isNone_some, Bool.and_false, Bool.false_eq_true, if_false,
    hmiss, cacheResponse]
  split_ifs with h1 h2
  · simp only [HandleOutcome.stored, Option.some.injEq, Prod.mk.injEq, true_and]
    constructor
    · intro _; exact ⟨h1.1, h1.2, h2⟩
    · intro _; trivial
  · simp only [HandleOutcome.stored]
    constructor
    · intro h; cases h
    · intro h; exact absurd h.2.2 h2
  · simp only [HandleOutcome.stored]
    constructor
    · intro h; cases h
    · intro h; exact absurd ⟨h.1, h.2.1⟩ h1

/-- C1 witness: an enabled route on a cache miss stores a 201 response of
length 1 under the fingerprint. -/
theorem C1_witness :
    (handleRequest [c1wroute] c1req missGet (some ⟨201, [5]⟩)).stored =
      some (GetKey c1kc c1req, [5], c1wroute.cache.ttl) := by
  exact (C1_amended [c1wroute] c1req missGet ⟨201, [5]⟩ c1wroute c1kc rfl rfl
    rfl).mpr (by refine ⟨by norm_num, by norm_num, by norm_num [c1wroute]⟩)

/-- C2: the repository's own documentation declares `header` as a cache-key
component built from the declared header names, but `GetKey`'s switch has no
`header` case, so a `header` component contributes nothing to the
fingerprint: at a policy declaring components [header, path] with header
X-Api-Key present, the code produces "/p" while the documented fingerprint
is "k1|/p". -/
theorem C2_bug :
    GetKey c2kc c2req = "/p" ∧
    getKeySpec c2kc c2req = "k1|/p" ∧
    GetKey c2kc c2req ≠ getKeySpec c2kc c2req := by
  refine ⟨rfl, rfl, ?_⟩
  intro h
  simp only [GetKey, getKeySpec] at h
  exact absurd h (by decide)

/-- C8 fails as stated: expiry is enforced lazily.  With capacity 2, after
`set "a" ttl=10ns at t=0` and `set "b" ttl=10ns at t=20`, entry "a" is still
stored although its expiry (10) is not strictly later than the current time
(20). -/
theorem C8_counterexample :
    lookupKey (runMemOps (MemCache.empty 2) c8ops).items "a" = some ⟨[1], 10⟩ ∧
    ¬ ((10 : Int) > 20) := by
  constructor
  · rfl
  · decide

/-- C8 (amended): for any operation sequence on a memory cache of capacity
C > 0, the entry count after every operation is at most C; and although an
expired entry may remain stored until it is next looked up, `Get` never
returns it: a lookup finding an entry whose expiry lies strictly before the
lookup time reports absent (and removes it). -/
theorem C8_amended (C : Nat) (ops : List MemOp) (hC : 0 < C) :
    (runMemOps (MemCache.empty C) ops).items.length ≤ C ∧
    (∀ (st : MemCache) (key : String) (now : Int) (e : MemEntry),
      lookupKey st.items key = some e → now > e.expiresAt →
      (st.Get key now).2.1 = false) := by
  constructor
  · have h := runMemOps_length_le ops (MemCache.empty C) hC (by simp [MemCache.empty])
    rwa [runMemOps_capacity ops (MemCache.empty C)] at h
  · intro st key now e hl hex
    unfold MemCache.Get
    rw [hl]
    simp [hex]

/-- C8 witness: with capacity 1 and three operations the count stays ≤ 1,
and the fresh-read half instantiated at an expired entry reports absent. -/
theorem C8_witness :
    (runMemOps (MemCache.empty 1) c8wops).items.length ≤ 1 ∧
    ((⟨1, [("a", ⟨[1], 5⟩)]⟩ : MemCache).Get "a" 6).2.1 = false := by
  have h := C8_amended 1 c8wops (by decide)
  exact ⟨h.1, h.2 ⟨1, [("a", ⟨[1], 5⟩)]⟩ "a" 6 ⟨[1], 5⟩ rfl (by decide)⟩

/-- C9: the claim is right and the code is wrong.  A route-level cache block
with `enabled: false` and no key policy survives `resolve` unchanged, and on
a matched request `handleRequest` passes the nil key policy straight to
`GetKey` (the 500 guard only fires when the cache is enabled), dereferencing
the nil pointer. -/
theorem C9_bug :
    resolve (some c9global) (some c9routeCfg) = .ok (some c9routeCfg) ∧
    c9routeCfg.enabled = false ∧
    c9routeCfg.keyConfig = none ∧
    handleRequest [c9route] c9req missGet (some ⟨200, []⟩) = .panicked := by
  exact ⟨rfl, rfl, rfl, rfl⟩

/-- C3 fails as stated: the code truncates the elapsed time to whole seconds
before multiplying by the refill rate.  With 1.5 s elapsed and rate 2/s the
claimed gain is floor(1.5 × 2) = 3, but the bucket gains 1 × 2 = 2 tokens:
starting from 0 tokens with limit 10 the check leaves 1 token after
consuming, where the claim predicts 2. -/
theorem C3_counterexample :
    ((1500000000 * 2 : Int).tdiv 1000000000 = 3) ∧
    (consumeWithLimit ⟨0, 0⟩ 10 2 1500000000).remaining = 1 ∧
    min ((0 : Int) + 3) 10 - 1 ≠ 1 := by
  refine ⟨by decide, by decide, by decide⟩

/-- C3 (amended): on an admission check with limit L > 0, rate r > 0 and a
bucket state with 0 ≤ tokens ≤ L and last-refill ≤ now, the bucket gains
exactly (elapsed nanoseconds truncated to whole seconds) × r tokens — not
floor(elapsed_seconds × r) — capped so tokens never exceed L, and the
last-refill timestamp advances to now exactly when the gain is positive. -/
theorem C3_amended (tb : TokenBucket) (limit r now : Int)
    (hl : 0 < limit) (hr : 0 < r) (ht : tb.lastRefillTime ≤ now)
    (htok : 0 ≤ tb.tokens) (hcap : tb.tokens ≤ limit) :
    (consumeWithLimit tb limit r now).bucket.lastRefillTime =
      (if 0 < elapsedWholeSeconds (now - tb.lastRefillTime) * r then now
       else tb.lastRefillTime) ∧
    (consumeWithLimit tb limit r now).bucket.tokens +
        (if (consumeWithLimit tb limit r now).allowed then 1 else 0) =
      min (tb.tokens + elapsedWholeSeconds (now - tb.lastRefillTime) * r) limit ∧
    (consumeWithLimit tb limit r now).bucket.tokens ≤ limit := by
  have hnl : ¬ limit ≤ 0 := not_le.mpr hl
  have hq0 : 0 ≤ elapsedWholeSeconds (now - tb.lastRefillTime) :=
    Int.tdiv_nonneg (by omega) (by norm_num)
  have hadd0 : 0 ≤ elapsedWholeSeconds (now - tb.lastRefillTime) * r :=
    mul_nonneg hq0 hr.le
  unfold consumeWithLimit
  simp only [if_neg hnl]
  by_cases h1 : 0 < elapsedWholeSeconds (now - tb.lastRefillTime) * r
  · simp only [if_pos h1]
    by_cases h2 : 0 < min (tb.tokens + elapsedWholeSeconds (now - tb.lastRefillTime) * r) limit
    · simp only [if_pos h2]
      exact ⟨trivial, by simp, by simp⟩
    · simp only [if_neg h2]
      exact ⟨trivial, by simp, by simp⟩
  · have hz : elapsedWholeSeconds (now - tb.lastRefillTime) * r = 0 :=
      le_antisymm (not_lt.mp h1) hadd0
    simp only [if_neg h1]
    by_cases h3 : 0 < tb.tokens
    · simp only [if_pos h3]
      refine ⟨trivial, ?_, ?_⟩ <;> (try simp [hz]) <;> omega
    · simp only [if_neg h3]
      refine ⟨trivial, ?_, ?_⟩ <;> (try simp [hz]) <;> omega

/-- C3 witness: from 5 tokens, limit 10, rate 1/s and 2.5 s elapsed the
bucket refills by 2 (truncated seconds × rate), advances last-refill, and
one token is consumed. -/
theorem C3_witness :
    (consumeWithLimit ⟨5, 0⟩ 10 1 2500000000).bucket.lastRefillTime =
      (if 0 < elapsedWholeSeconds (2500000000 - 0) * 1 then (2500000000 : Int)
       else 0) ∧
    (consumeWithLimit ⟨5, 0⟩ 10 1 2500000000).bucket.tokens +
        (if (consumeWithLimit ⟨5, 0⟩ 10 1 2500000000).allowed then 1 else 0) =
      min ((5 : Int) + elapsedWholeSeconds (2500000000 - 0) * 1) 10 ∧
    (consumeWithLimit ⟨5, 0⟩ 10 1 2500000000).bucket.tokens ≤ 10 :=
  C3_amended ⟨5, 0⟩ 10 1 2500000000 (by decide) (by decide) (by decide)
    (by decide) (by decide)

/-- C4 fails as stated for the memory backend: with limit 0 (≤ 0) the denial
carries reset time `now` — the reset computation sees tokens ≥ limit and
reports the bucket as already full — not `now + window`. -/
theorem C4_counterexample :
    (consumeWithLimit ⟨0, 0⟩ 0 1 100).allowed = false ∧
    (consumeWithLimit ⟨0, 0⟩ 0 1 100).remaining = 0 ∧
    (consumeWithLimit ⟨0, 0⟩ 0 1 100).resetTime = 100 ∧
    (100 : Int) ≠ 100 + 60000000000 := by
  refine ⟨by decide, by decide, by decide, by decide⟩

/-- C4 (amended): with a configured limit ≤ 0 every admission check denies
with 0 remaining tokens; the Redis backend's reset time is now + window, but
the memory backend's reset time is `now` (for any bucket with a non-negative
token count). -/
theorem C4_amended (tb : TokenBucket) (limit r window now : Int)
    (rl : RedisRateLimiter) (evalResult : Except Unit (List Int))
    (hl : limit ≤ 0) (htok : 0 ≤ tb.tokens) :
    consumeWithLimit tb limit r now = ⟨false, 0, now, tb⟩ ∧
    rl.AllowWithLimit limit window now evalResult = ⟨false, 0, now + window⟩ := by
  constructor
  · have hge : tb.tokens ≥ limit := le_trans hl htok
    unfold consumeWithLimit calculateResetTimeWithLimit
    simp [hl, hge]
  · unfold RedisRateLimiter.AllowWithLimit
    simp [hl]

/-- C4 witness: limit 0, window 60 s — the memory backend resets at `now`,
the Redis backend at now + window. -/
theorem C4_witness :
    consumeWithLimit ⟨0, 0⟩ 0 1 100 = ⟨false, 0, 100, ⟨0, 0⟩⟩ ∧
    RedisRateLimiter.AllowWithLimit ⟨true⟩ 0 60000000000 100 (.ok []) =
      ⟨false, 0, 100 + 60000000000⟩ :=
  C4_amended ⟨0, 0⟩ 0 1 60000000000 100 ⟨true⟩ (.ok []) (by decide) (by decide)

/-- C5: when the Redis invocation fails (transport error or timeout, modelled
by the error case) or the reply is malformed (fewer than three values), the
admission check allows with failOpen = true — the default when the config
leaves it unset — and denies with 0 remaining when failOpen = false. -/
theorem C5_confirmed (limit window now : Int) (vals : List Int)
    (hl : 0 < limit) (hshort : vals.length < 3) :
    (NewRedisRateLimiter none).failOpen = true ∧
    ((NewRedisRateLimiter none).AllowWithLimit limit window now
      (.error ())).allowed = true ∧
    (NewRedisRateLimiter (some false)).AllowWithLimit limit window now
      (.error ()) = ⟨false, 0, now + window⟩ ∧
    (NewRedisRateLimiter (some true)).AllowWithLimit limit window now
      (.ok vals) = ⟨true, limit, now + window⟩ ∧
    (NewRedisRateLimiter (some false)).AllowWithLimit limit window now
      (.ok vals) = ⟨false, 0, now + window⟩ := by
  have hnl : ¬ limit ≤ 0 := not_le.mpr hl
  refine ⟨rfl, ?_, ?_, ?_, ?_⟩ <;>
    simp [NewRedisRateLimiter, RedisRateLimiter.AllowWithLimit, hnl, hshort]

/-- C5 witness at limit 5, window 10, an empty (malformed) reply list. -/
theorem C5_witness :
    (NewRedisRateLimiter none).failOpen = true ∧
    ((NewRedisRateLimiter none).AllowWithLimit 5 10 0 (.error ())).allowed = true ∧
    (NewRedisRateLimiter (some false)).AllowWithLimit 5 10 0 (.error ()) =
      ⟨false, 0, 0 + 10⟩ ∧
    (NewRedisRateLimiter (some true)).AllowWithLimit 5 10 0 (.ok []) =
      ⟨true, 5, 0 + 10⟩ ∧
    (NewRedisRateLimiter (some false)).AllowWithLimit 5 10 0 (.ok []) =
      ⟨false, 0, 0 + 10⟩ :=
  C5_confirmed 5 10 0 [] (by decide) (by decide)

theorem matchRoute_cons_skip (cr : CompiledRoute) (rest : List CompiledRoute)
    (path method : String) (h : routeFilterMatch cr path = false) :
    matchRoute (cr :: rest) path method = matchRoute rest path method := by
  simp [matchRoute, h]

theorem matchRouteForRateLimit_cons_skip (cr : CompiledRoute)
    (rest : List CompiledRoute) (path : String)
    (h : routeFilterMatch cr path = false) :
    matchRouteForRateLimit (cr :: rest) path = matchRouteForRateLimit rest path := by
  simp [matchRouteForRateLimit, h]

/-- C6: when the first route whose path/include/exclude filter accepts the
request has the request's (lower-cased) method in its excludeMethods list,
the cache matcher reports no match — so the request takes the fallback-proxy
path (404 here, with no Host header) — while the rate-limit matcher ignores
excludeMethods and still selects that route. -/
theorem C6_confirmed (pre post : List CompiledRoute) (cr : CompiledRoute)
    (path method : String)
    (hpre : ∀ r ∈ pre, routeFilterMatch r path = false)
    (hmatch : routeFilterMatch cr path = true)
    (hexc : methodExcluded cr.cache.keyConfig method = true) :
    matchRoute (pre ++ cr :: post) path method = none ∧
    matchRouteForRateLimit (pre ++ cr :: post) path = some cr ∧
    (∀ (req : Request) (get : String → GetRes) (u : Option UpstreamResponse),
      req.path = path → strToLower req.method = method → req.host = "" →
      handleRequest (pre ++ cr :: post) req get u = .ok 404 false false none) := by
  have key : ∀ l : List CompiledRoute,
      (∀ r ∈ l, routeFilterMatch r path = false) →
      matchRoute (l ++ cr :: post) path method = none ∧
      matchRouteForRateLimit (l ++ cr :: post) path = some cr := by
    intro l
    induction l with
    | nil =>
      intro _
      refine ⟨?_, ?_⟩
      · simp [matchRoute, hmatch, hexc]
      · simp [matchRouteForRateLimit, hmatch]
    | cons head tail ih =>
      intro hl
      have hh : routeFilterMatch head path = false := hl head (by simp)
      have ht := ih (fun r hr => hl r (by simp [hr]))
      refine ⟨?_, ?_⟩
      · rw [List.cons_append, matchRoute_cons_skip _ _ _ _ hh]
        exact ht.1
      · rw [List.cons_append, matchRouteForRateLimit_cons_skip _ _ _ hh]
        exact ht.2
  obtain ⟨h1, h2⟩ := key pre hpre
  refine ⟨h1, h2, ?_⟩
  intro req get u hp hm hh
  unfold handleRequest
  rw [hm, hp, h1]
  simp [hh]

/-- C6 witness: route c6r1 never matches, c6r2 matches every path and
excludes POST; a POST request is unmatched for caching (404 fallback) but
matched for rate limiting. -/
theorem C6_witness :
    matchRoute [c6r1, c6r2] "/x" "post" = none ∧
    matchRouteForRateLimit [c6r1, c6r2] "/x" = some c6r2 ∧
    handleRequest [c6r1, c6r2] c6req missGet none = .ok 404 false false none := by
  obtain ⟨h1, h2, h3⟩ := C6_confirmed [c6r1] [] c6r2 "/x" "post"
    (by intro r hr
        simp only [List.mem_singleton] at hr
        subst hr
        rfl)
    rfl (by decide)
  exact ⟨h1, h2, h3 c6req missGet none rfl (by decide) rfl⟩

theorem sortStrings_eq_of_perm (l1 l2 : List String) (h : l1.Perm l2) :
    sortStrings l1 = sortStrings l2 := by
  unfold sortStrings
  exact List.eq_of_perm_of_sorted
    ((List.perm_insertionSort _ l1).trans (h.trans (List.perm_insertionSort _ l2).symm))
    (List.sorted_insertionSort _ l1) (List.sorted_insertionSort _ l2)

/-- C7 fails as stated for routes with no route-level cache policy: `resolve`
returns the global config unchanged — unsorted — so two globals declaring the
same component set in different orders yield different fingerprints for the
same request. -/
theorem C7_counterexample :
    resolve (some c7gA) none = .ok (some c7gA) ∧
    resolve (some c7gB) none = .ok (some c7gB) ∧
    c7kcA.type.Perm c7kcB.type ∧
    GetKey c7kcA c7req = "q|/p" ∧
    GetKey c7kcB c7req = "/p|q" ∧
    ("q|/p" : String) ≠ "/p|q" := by
  refine ⟨rfl, rfl, by decide, rfl, rfl, by decide⟩

/-- C7 (amended): sorting happens only when the route declares its own
enabled cache policy: two such route policies whose component lists are
permutations of each other resolve to effective policies with identical
(sorted) component lists, hence identical fingerprints for every request.
A route with no route-level policy inherits the global policy as declared,
unsorted. -/
theorem C7_amended (ec : Option CacheConfig) (rc1 rc2 : CacheConfig)
    (k1 k2 : CacheKeyConfig) (req : Request)
    (h1 : rc1.enabled = true) (h2 : rc2.enabled = true)
    (hk1 : rc1.keyConfig = some k1) (hk2 : rc2.keyConfig = some k2)
    (hperm : k1.type.Perm k2.type) :
    ∃ e1 e2 : CacheConfig,
      resolve ec (some rc1) = .ok (some e1) ∧
      resolve ec (some rc2) = .ok (some e2) ∧
      ∀ ek1 ek2 : CacheKeyConfig, e1.keyConfig = some ek1 →
        e2.keyConfig = some ek2 → GetKey ek1 req = GetKey ek2 req := by
  unfold resolve
  simp only [h1, h2, hk1, hk2, Option.isNone_some, Bool.not_true, Bool.false_eq_true,
    if_false]
  refine ⟨_, _, rfl, rfl, ?_⟩
  intro ek1 ek2 he1 he2
  simp only [Option.some.injEq] at he1 he2
  subst he1
  subst he2
  simp only [GetKey]
  rw [sortStrings_eq_of_perm k1.type k2.type hperm]

/-- C7 witness: route-level enabled policies declaring [query, path] and
[path, query] resolve to the same fingerprints. -/
theorem C7_witness :
    ∃ e1 e2 : CacheConfig,
      resolve none (some c7rc1) = .ok (some e1) ∧
      resolve none (some c7rc2) = .ok (some e2) ∧
      ∀ ek1 ek2 : CacheKeyConfig, e1.keyConfig = some ek1 →
        e2.keyConfig = some ek2 → GetKey ek1 c7req = GetKey ek2 c7req :=
  C7_amended none c7rc1 c7rc2 c7kcA c7kcB c7req rfl rfl rfl rfl (by decide)

/-- C10: the disk backend's Get returns present = false together with a
non-nil error both for absent keys and for keys whose stored expiry has
passed, and the pipeline treats any backend error as a miss: the request
still reaches the upstream and the upstream status is served. -/
theorem C10_confirmed (st : DiskCacheState) (now : Nat)
    (routes : List CompiledRoute) (req : Request) (cr : CompiledRoute)
    (kc : CacheKeyConfig) (u : UpstreamResponse)
    (hmatch : matchRoute routes req.path (strToLower req.method) = some cr)
    (hkc : cr.cache.keyConfig = some kc)
    (habs : lookupKey st.index (GetKey kc req) = none ∨
      ∃ off rec, lookupKey st.index (GetKey kc req) = some off ∧
        st.records[off]? = some rec ∧ rec.key = GetKey kc req ∧
        rec.expiry ≠ 0 ∧ now > rec.expiry) :
    (DiskCache.Get st (GetKey kc req) now).1 = ⟨none, false, true⟩ ∧
    handleRequest routes req (fun k => (DiskCache.Get st k now).1) (some u) =
      .ok u.status false true (cacheResponse cr.cache (GetKey kc req) u) := by
  have hget : (DiskCache.Get st (GetKey kc req) now).1 = ⟨none, false, true⟩ := by
    rcases habs with h | ⟨off, rec, ha, hb, hc, hd, he⟩
    · unfold DiskCache.Get
      rw [h]
    · unfold DiskCache.Get
      simp [ha, hb, hc, hd, he]
  refine ⟨hget, ?_⟩
  unfold handleRequest
  rw [hmatch]
  simp only [hkc, Option.isNone_some, Bool.and_false, Bool.false_eq_true, if_false,
    hget, handleCacheHit, Bool.not_true, Bool.false_and, Bool.and_false]

/-- C10 witness: an empty disk cache misses with an error, and the request
is proxied upstream. -/
theorem C10_witness :
    (DiskCache.Get c10st (GetKey c10kc c10req) 5).1 = ⟨none, false, true⟩ ∧
    handleRequest [c10route] c10req (fun k => (DiskCache.Get c10st k 5).1)
        (some ⟨200, [3]⟩) =
      .ok 200 false true (cacheResponse c10route.cache (GetKey c10kc c10req)
        ⟨200, [3]⟩) :=
  C10_confirmed c10st 5 [c10route] c10req c10route c10kc ⟨200, [3]⟩ rfl rfl
    (Or.inl rfl)

end Hermyx
